import Mathlib

/-!
Verification of the layout / packing core of `advance_qr_generator.py`.

The Python source is shallowly embedded: physical sizes in centimetres are
rationals, pixel counts are integers or naturals, Python `int(...)` on a
nonnegative value is `Int.floor`, Python float `//` is `Int.floor` of the
rational quotient, and the interactive error paths are modelled as an
explicit result type carrying the error that terminates the run.
-/

namespace CreateQR

/-- Error taxonomy for the terminal failure paths of `main`.
`LayoutOverflow` carries the reported required and available sizes
(`Needs: total_width x total_height | Available: drawable_w x drawable_h`). -/
inductive LayoutError where
  | InvalidInput : LayoutError
  | InvalidDimension : LayoutError
  | TileTooLarge : LayoutError
  | LayoutOverflow : ℚ → ℚ → ℚ → ℚ → LayoutError
deriving DecidableEq, Repr

/-- Result of a layout computation: either a value or the error that
terminates the run. -/
inductive LayoutResult (α : Type) where
  | ok : α → LayoutResult α
  | error : LayoutError → LayoutResult α
deriving DecidableEq, Repr

/-- `DPI = 300`, module-level constant of the script. -/
def DPI : ℚ := 300

/-- Python `int(q)` truncates toward zero. -/
def pyInt (q : ℚ) : ℤ := if 0 ≤ q then ⌊q⌋ else ⌈q⌉

/-- `cm_to_pixels(cm_value)`: `int(cm_value * DPI / 2.54)` (source line 21). -/
def cm_to_pixels (cm_value : ℚ) : ℤ := pyInt (cm_value * DPI / (254/100))

/-- Python `str.isdigit`: true iff the string is nonempty and every
character is a digit. -/
def pyIsDigitStr (s : String) : Bool := !s.isEmpty && s.data.all Char.isDigit

/-- Python `int(s)` on an all-digit string: decimal value. -/
def pyParseNat (s : String) : ℕ :=
  s.data.foldl (fun a c => 10 * a + (c.toNat - 48)) 0

/-- Python `str.zfill(width)`: left-pad with `'0'` up to `width`
(no-op when the string is already at least that long). -/
def zfill (s : String) (width : ℕ) : String :=
  ⟨List.replicate (width - s.length) '0' ++ s.data⟩

/-- Numeric-range branch of `get_qr_data` (source lines 33-51): validates the
two bounds, takes the padding from the start string, and returns
`[str(i).zfill(padding) for i in range(start_num, end_num + 1)]`.
`none` models the re-prompt / rejection paths. -/
def get_qr_data_range (start_str end_str : String) : Option (List String) :=
  if pyIsDigitStr start_str && pyIsDigitStr end_str then
    let padding := start_str.length
    let start_num := pyParseNat start_str
    let end_num := pyParseNat end_str
    if end_num < start_num then none
    else
      some ((List.range (end_num + 1 - start_num)).map
        (fun i => zfill (Nat.repr (start_num + i)) padding))
  else none

/-- PNG branch of `main` (source lines 126-151): `rows = ceil(total/k)` via
`(total + k - 1) // k`, canvas `(w*k, h*rows)`, and tile `i` pasted at
`((i % k) * w, (i // k) * h)`. Each emitted triple is
`(tile_index, x_pos, y_pos)`. -/
def pngLayout (total qrs_per_row tileW tileH : ℕ) :
    Option ((ℕ × ℕ) × List (ℕ × ℕ × ℕ)) :=
  if qrs_per_row = 0 then none
  else
    let rows := (total + qrs_per_row - 1) / qrs_per_row
    some ((tileW * qrs_per_row, tileH * rows),
      (List.range total).map
        (fun i => (i, (i % qrs_per_row) * tileW, (i / qrs_per_row) * tileH)))

/-! Section: Arithmetic helpers -/

theorem ceilDiv_eq_ceil (a b : ℕ) (hb : 0 < b) :
    (((a + b - 1) / b : ℕ) : ℤ) = ⌈(a : ℚ) / (b : ℚ)⌉ := by
  have hb' : (0 : ℚ) < (b : ℚ) := by exact_mod_cast hb
  symm
  rw [Int.ceil_eq_iff]
  have h1 : b * ((a + b - 1) / b) + (a + b - 1) % b = a + b - 1 :=
    Nat.div_add_mod (a + b - 1) b
  have h2 : (a + b - 1) % b < b := Nat.mod_lt _ hb
  have h3 : a ≤ ((a + b - 1) / b) * b := by
    have : b * ((a + b - 1) / b) + (b - 1) + 1 ≥ a + b := by omega
    have hbq : b * ((a + b - 1) / b) = ((a + b - 1) / b) * b := Nat.mul_comm _ _
    omega
  have h4 : ((a + b - 1) / b) * b < a + b := by
    have hbq : b * ((a + b - 1) / b) = ((a + b - 1) / b) * b := Nat.mul_comm _ _
    omega
  constructor
  · rw [lt_div_iff₀ hb']
    have h4' : (((a + b - 1) / b : ℕ) : ℚ) * b < (a : ℚ) + b := by exact_mod_cast h4
    have goal' : ((((a + b - 1) / b : ℕ) : ℚ) - 1) * b < (a : ℚ) := by nlinarith [h4']
    exact_mod_cast goal'
  · rw [div_le_iff₀ hb']
    exact_mod_cast h3

theorem pyInt_mono {a b : ℚ} (h : a ≤ b) : pyInt a ≤ pyInt b := by
  unfold pyInt
  rcases le_or_lt 0 a with ha | ha
  · rw [if_pos ha, if_pos (le_trans ha h)]
    exact Int.floor_le_floor h
  · rcases le_or_lt 0 b with hb | hb
    · rw [if_neg (not_le.mpr ha), if_pos hb]
      calc ⌈a⌉ ≤ 0 := Int.ceil_le.mpr (by exact_mod_cast ha.le)
        _ ≤ ⌊b⌋ := Int.floor_nonneg.mpr hb
    · rw [if_neg (not_le.mpr ha), if_neg (not_le.mpr hb)]
      exact Int.ceil_le_ceil h

/-! Section: Claim C6 -/

/-- C6 counterexample: `cm_to_pixels` does not satisfy `round(cm*300/2.54)`.
At `cm = 0.1` the code computes `int(11.811...) = 11` while rounding gives
`12`. -/
theorem cm_to_pixels_not_round :
    cm_to_pixels (1/10) = 11 ∧ round ((1/10 : ℚ) * DPI / (254/100)) = 12 := by
  constructor
  · unfold cm_to_pixels pyInt DPI
    rw [if_pos (by norm_num)]
    norm_num
  · rw [round_eq]
    norm_num [DPI]

/-- C6 (amended): `cm_to_pixels` truncates toward zero, so for nonnegative
inputs it returns `⌊cm * 300 / 2.54⌋` (floor, not round), and it is
monotonic increasing. -/
theorem cm_to_pixels_trunc_mono :
    (∀ c : ℚ, 0 ≤ c → cm_to_pixels c = ⌊c * DPI / (254/100)⌋) ∧
    (∀ a b : ℚ, a ≤ b → cm_to_pixels a ≤ cm_to_pixels b) := by
  constructor
  · intro c hc
    unfold cm_to_pixels pyInt
    rw [if_pos]
    apply div_nonneg _ (by norm_num)
    exact mul_nonneg hc (by norm_num [DPI])
  · intro a b hab
    unfold cm_to_pixels
    apply pyInt_mono
    have hDPI : (0 : ℚ) ≤ DPI := by norm_num [DPI]
    have hmul : a * DPI ≤ b * DPI := mul_le_mul_of_nonneg_right hab hDPI
    exact div_le_div_of_nonneg_right hmul (by norm_num)

/-- C6 witness: the amended theorem applied at `cm = 1` and `1 ≤ 2`. -/
theorem cm_to_pixels_trunc_mono_witness :
    cm_to_pixels 1 = ⌊(1 : ℚ) * DPI / (254/100)⌋ ∧
    cm_to_pixels 1 ≤ cm_to_pixels 2 :=
  ⟨cm_to_pixels_trunc_mono.1 1 (by norm_num),
   cm_to_pixels_trunc_mono.2 1 2 (by norm_num)⟩

/-! Section: Claim C9 -/

/-- C9: for all-digit bounds with `start ≤ end` and padding
`p = len(start_str)`, the payload list has `end - start + 1` elements and its
`i`-th element is the decimal representation of `start + i` left-padded with
zeros to width `p`. -/
theorem numeric_range_payloads_correct (start_str end_str : String)
    (hs : pyIsDigitStr start_str = true) (he : pyIsDigitStr end_str = true)
    (hle : pyParseNat start_str ≤ pyParseNat end_str) :
    ∃ l, get_qr_data_range start_str end_str = some l ∧
      l.length = pyParseNat end_str - pyParseNat start_str + 1 ∧
      ∀ i (hi : i < l.length),
        l.get ⟨i, hi⟩ =
          ⟨List.replicate (start_str.length -
              (Nat.repr (pyParseNat start_str + i)).length) '0' ++
            (Nat.repr (pyParseNat start_str + i)).data⟩ := by
  refine ⟨(List.range (pyParseNat end_str + 1 - pyParseNat start_str)).map
    (fun i => zfill (Nat.repr (pyParseNat start_str + i)) start_str.length),
    ?_, ?_, ?_⟩
  · unfold get_qr_data_range
    rw [hs, he]
    simp only [Bool.and_self, if_true]
    rw [if_neg (by omega)]
  · simp only [List.length_map, List.length_range]
    omega
  · intro i hi
    simp only [List.length_map, List.length_range] at hi
    simp only [List.get_eq_getElem, List.getElem_map, List.getElem_range]
    rfl

/-- C9 witness: the theorem applied to the range `"08"`–`"11"`. -/
theorem numeric_range_payloads_correct_witness :
    ∃ l, get_qr_data_range "08" "11" = some l ∧
      l.length = pyParseNat "11" - pyParseNat "08" + 1 ∧
      ∀ i (hi : i < l.length),
        l.get ⟨i, hi⟩ =
          ⟨List.replicate ("08".length -
              (Nat.repr (pyParseNat "08" + i)).length) '0' ++
            (Nat.repr (pyParseNat "08" + i)).data⟩ :=
  numeric_range_payloads_correct "08" "11" (by decide) (by decide) (by decide)

/-! Section: Claim C3 -/

/-- C3: in raster (PNG) mode with `N > 0` tiles and `k > 0` tiles per row,
the canvas is exactly `(k * tile_w, ceil(N/k) * tile_h)` pixels and tile `i`
is pasted at `((i % k) * tile_w, (i / k) * tile_h)`. -/
theorem raster_layout_correct (total k tileW tileH : ℕ)
    (htotal : 0 < total) (hk : 0 < k) :
    ∃ canvas tiles, pngLayout total k tileW tileH = some (canvas, tiles) ∧
      canvas.1 = k * tileW ∧
      ((canvas.2 : ℚ) = (⌈(total : ℚ) / (k : ℚ)⌉ : ℤ) * tileH) ∧
      tiles.length = total ∧
      ∀ i (hi : i < tiles.length),
        tiles.get ⟨i, hi⟩ = (i, (i % k) * tileW, (i / k) * tileH) := by
  refine ⟨(tileW * k, tileH * ((total + k - 1) / k)),
    (List.range total).map (fun i => (i, (i % k) * tileW, (i / k) * tileH)),
    ?_, ?_, ?_, ?_, ?_⟩
  · unfold pngLayout
    rw [if_neg (by omega)]
  · exact Nat.mul_comm tileW k
  · have h : (((total + k - 1) / k : ℕ) : ℚ) = ((⌈(total : ℚ) / (k : ℚ)⌉ : ℤ) : ℚ) := by
      rw [← ceilDiv_eq_ceil total k hk]
      exact (Int.cast_natCast _).symm
    calc ((tileH * ((total + k - 1) / k) : ℕ) : ℚ)
        = (((total + k - 1) / k : ℕ) : ℚ) * tileH := by push_cast; ring
      _ = ((⌈(total : ℚ) / (k : ℚ)⌉ : ℤ) : ℚ) * tileH := by rw [h]
  · simp
  · intro i hi
    simp only [List.get_eq_getElem, List.getElem_map, List.getElem_range]

/-- C3 witness: the theorem applied to 5 tiles, 2 per row, 10x20 px tiles. -/
theorem raster_layout_correct_witness :
    ∃ canvas tiles, pngLayout 5 2 10 20 = some (canvas, tiles) ∧
      canvas.1 = 2 * 10 ∧
      ((canvas.2 : ℚ) = (⌈(5 : ℚ) / (2 : ℚ)⌉ : ℤ) * 20) ∧
      tiles.length = 5 ∧
      ∀ i (hi : i < tiles.length),
        tiles.get ⟨i, hi⟩ = (i, (i % 2) * 10, (i / 2) * 20) :=
  raster_layout_correct 5 2 10 20 (by decide) (by decide)

/-! Section: PDF layout (source lines 157-231) -/

/-- Fixed page margin, `margin_cm = 1.0` (source line 179). -/
def margin_cm : ℚ := 1

/-- `drawable_width_cm = page_width_cm - (2 * margin_cm)` (source line 180). -/
def drawable_width_cm (page_width_cm : ℚ) : ℚ := page_width_cm - 2 * margin_cm

/-- `drawable_height_cm = page_height_cm - (2 * margin_cm)` (source line 181). -/
def drawable_height_cm (page_height_cm : ℚ) : ℚ := page_height_cm - 2 * margin_cm

/-- Grid footprint width
`(qrs_per_row * qr_width_cm) + (max(0, qrs_per_row - 1) * col_spacing_cm)`
(source lines 206 and 226); `max 0` is the truncated natural subtraction. -/
def grid_w (qrs_per_row : ℕ) (qr_width_cm col_spacing_cm : ℚ) : ℚ :=
  (qrs_per_row : ℚ) * qr_width_cm + ((qrs_per_row - 1 : ℕ) : ℚ) * col_spacing_cm

/-- Grid footprint height, analogous to `grid_w` (source lines 207 and 227). -/
def grid_h (qrs_per_col : ℕ) (qr_height_cm row_spacing_cm : ℚ) : ℚ :=
  (qrs_per_col : ℚ) * qr_height_cm + ((qrs_per_col - 1 : ℕ) : ℚ) * row_spacing_cm

/-- `x_start = (page_width_cm - grid_w) / 2` (source line 230). -/
def x_start (page_width_cm gridW : ℚ) : ℚ := (page_width_cm - gridW) / 2

/-- `y_start = page_height_cm - (page_height_cm - grid_h) / 2` (source
line 231). -/
def y_start (page_height_cm gridH : ℚ) : ℚ :=
  page_height_cm - (page_height_cm - gridH) / 2

/-- Max-fit branch of the PDF layout (source lines 184-195): effective tile
sizes must be positive, columns and rows are computed by float floor-division
`(drawable + gap) // (tile + gap)`, and a zero count is the `TileTooLarge`
failure ("QR code is too large to fit"). -/
def maxFitLayout (drawW drawH qr_width_cm qr_height_cm col_spacing_cm
    row_spacing_cm : ℚ) : LayoutResult (ℤ × ℤ) :=
  let eff_qr_width := qr_width_cm + col_spacing_cm
  let eff_qr_height := qr_height_cm + row_spacing_cm
  if eff_qr_width ≤ 0 ∨ eff_qr_height ≤ 0 then .error .InvalidInput
  else
    let qrs_per_row := ⌊(drawW + col_spacing_cm) / eff_qr_width⌋
    let qrs_per_col := ⌊(drawH + row_spacing_cm) / eff_qr_height⌋
    if qrs_per_row = 0 ∨ qrs_per_col = 0 then .error .TileTooLarge
    else .ok (qrs_per_row, qrs_per_col)

/-- Fixed-count branch of the PDF layout (source lines 196-215):
`rows = int(sqrt(n))`, `cols = ceil(n / rows)`, rejected with the overflow
message (required vs available size) when the footprint exceeds the drawable
area; on success the per-page capacity is `n` itself. The result triple is
`(qrs_per_row, qrs_per_col, qrs_to_place_on_page)`. -/
def fixedCountLayout (drawW drawH qr_width_cm qr_height_cm col_spacing_cm
    row_spacing_cm : ℚ) (num_qrs : ℕ) : LayoutResult (ℕ × ℕ × ℕ) :=
  if num_qrs = 0 then .error .InvalidInput
  else
    let rows := Nat.sqrt num_qrs
    let cols := (⌈(num_qrs : ℚ) / (rows : ℚ)⌉).toNat
    let total_width := grid_w cols qr_width_cm col_spacing_cm
    let total_height := grid_h rows qr_height_cm row_spacing_cm
    if drawW < total_width ∨ drawH < total_height then
      .error (.LayoutOverflow total_width total_height drawW drawH)
    else .ok (cols, rows, num_qrs)

/-! Section: Evaluation helpers -/

theorem sqrt_eval {n k : ℕ} (h1 : k * k ≤ n) (h2 : n < (k + 1) * (k + 1)) :
    Nat.sqrt n = k := by
  apply le_antisymm
  · exact Nat.lt_succ_iff.mp (Nat.sqrt_lt.mpr h2)
  · exact Nat.le_sqrt.mpr h1

theorem ceil_eval {q : ℚ} {z : ℤ} (h1 : (z : ℚ) - 1 < q) (h2 : q ≤ (z : ℚ)) :
    ⌈q⌉ = z := Int.ceil_eq_iff.mpr ⟨h1, h2⟩

theorem maxFit_ok (drawW drawH qrW qrH colGap rowGap : ℚ) (c r : ℤ)
    (hguard : ¬(qrW + colGap ≤ 0 ∨ qrH + rowGap ≤ 0))
    (hc : ⌊(drawW + colGap) / (qrW + colGap)⌋ = c)
    (hr : ⌊(drawH + rowGap) / (qrH + rowGap)⌋ = r)
    (hz : ¬(c = 0 ∨ r = 0)) :
    maxFitLayout drawW drawH qrW qrH colGap rowGap = .ok (c, r) := by
  simp only [maxFitLayout, if_neg hguard]
  rw [hc, hr, if_neg hz]

theorem fixedCount_ok (drawW drawH qrW qrH colGap rowGap : ℚ) (n cols rows : ℕ)
    (hn : n ≠ 0) (hrows : Nat.sqrt n = rows)
    (hcols : ⌈(n : ℚ) / ((rows : ℕ) : ℚ)⌉ = (cols : ℤ))
    (hfit : ¬(drawW < grid_w cols qrW colGap ∨ drawH < grid_h rows qrH rowGap)) :
    fixedCountLayout drawW drawH qrW qrH colGap rowGap n =
      .ok (cols, rows, n) := by
  simp only [fixedCountLayout, if_neg hn]
  rw [hrows, hcols, Int.toNat_natCast, if_neg hfit]

theorem fixedCount_overflow (drawW drawH qrW qrH colGap rowGap : ℚ)
    (n cols rows : ℕ)
    (hn : n ≠ 0) (hrows : Nat.sqrt n = rows)
    (hcols : ⌈(n : ℚ) / ((rows : ℕ) : ℚ)⌉ = (cols : ℤ))
    (hover : drawW < grid_w cols qrW colGap ∨ drawH < grid_h rows qrH rowGap) :
    fixedCountLayout drawW drawH qrW qrH colGap rowGap n =
      .error (.LayoutOverflow (grid_w cols qrW colGap)
        (grid_h rows qrH rowGap) drawW drawH) := by
  simp only [fixedCountLayout, if_neg hn]
  rw [hrows, hcols, Int.toNat_natCast, if_pos hover]

/-! Section: Claim C1 -/

/-- C1: in paginated max-fit mode, whenever the computation succeeds the
column count is the largest integer `c` with `c*w + (c-1)*gx ≤ W` and the
row count is the analogous largest integer for `H, h, gy`; and whenever the
floor computation yields zero rows or columns the run fails with
`TileTooLarge` (before producing any placement). -/
theorem max_fit_grid_correct (W H w h gx gy : ℚ)
    (hw : 0 < w) (hh : 0 < h) (hgx : 0 ≤ gx) (hgy : 0 ≤ gy) :
    (∀ c r : ℤ, maxFitLayout W H w h gx gy = .ok (c, r) →
      (((c : ℚ) * w + ((c : ℚ) - 1) * gx ≤ W ∧
        ∀ m : ℤ, (m : ℚ) * w + ((m : ℚ) - 1) * gx ≤ W → m ≤ c) ∧
       ((r : ℚ) * h + ((r : ℚ) - 1) * gy ≤ H ∧
        ∀ m : ℤ, (m : ℚ) * h + ((m : ℚ) - 1) * gy ≤ H → m ≤ r))) ∧
    (⌊(W + gx) / (w + gx)⌋ = 0 ∨ ⌊(H + gy) / (h + gy)⌋ = 0 →
      maxFitLayout W H w h gx gy = .error .TileTooLarge) := by
  have hew : (0 : ℚ) < w + gx := by linarith
  have heh : (0 : ℚ) < h + gy := by linarith
  have hguard : ¬(w + gx ≤ 0 ∨ h + gy ≤ 0) := by
    simp only [not_or, not_le]
    exact ⟨hew, heh⟩
  constructor
  · intro c r hok
    simp only [maxFitLayout, if_neg hguard] at hok
    by_cases hz : ⌊(W + gx) / (w + gx)⌋ = 0 ∨ ⌊(H + gy) / (h + gy)⌋ = 0
    · rw [if_pos hz] at hok
      exact absurd hok (by simp)
    · rw [if_neg hz] at hok
      simp only [LayoutResult.ok.injEq, Prod.mk.injEq] at hok
      obtain ⟨hc, hr⟩ := hok
      subst hc
      subst hr
      refine ⟨⟨?_, ?_⟩, ⟨?_, ?_⟩⟩
      · have h1 : ((⌊(W + gx) / (w + gx)⌋ : ℚ)) ≤ (W + gx) / (w + gx) :=
          Int.floor_le _
        have h2 : ((⌊(W + gx) / (w + gx)⌋ : ℚ)) * (w + gx) ≤ W + gx :=
          (le_div_iff₀ hew).mp h1
        nlinarith [h2]
      · intro m hm
        apply Int.le_floor.mpr
        rw [le_div_iff₀ hew]
        nlinarith [hm]
      · have h1 : ((⌊(H + gy) / (h + gy)⌋ : ℚ)) ≤ (H + gy) / (h + gy) :=
          Int.floor_le _
        have h2 : ((⌊(H + gy) / (h + gy)⌋ : ℚ)) * (h + gy) ≤ H + gy :=
          (le_div_iff₀ heh).mp h1
        nlinarith [h2]
      · intro m hm
        apply Int.le_floor.mpr
        rw [le_div_iff₀ heh]
        nlinarith [hm]
  · intro h0
    simp only [maxFitLayout, if_neg hguard]
    rw [if_pos h0]

/-- C1 witness: the theorem applied to the spec example
`W = 19.7, H = 27.7, w = h = 5, gx = gy = 0.5`, where the code computes
3 columns and 5 rows. -/
theorem max_fit_grid_correct_witness :
    (((3 : ℤ) : ℚ) * 5 + (((3 : ℤ) : ℚ) - 1) * (1/2) ≤ 197/10 ∧
      ∀ m : ℤ, (m : ℚ) * 5 + ((m : ℚ) - 1) * (1/2) ≤ 197/10 → m ≤ 3) ∧
    (((5 : ℤ) : ℚ) * 5 + (((5 : ℤ) : ℚ) - 1) * (1/2) ≤ 277/10 ∧
      ∀ m : ℤ, (m : ℚ) * 5 + ((m : ℚ) - 1) * (1/2) ≤ 277/10 → m ≤ 5) :=
  (max_fit_grid_correct (197/10) (277/10) 5 5 (1/2) (1/2)
    (by norm_num) (by norm_num) (by norm_num) (by norm_num)).1 3 5
    (maxFit_ok (197/10) (277/10) 5 5 (1/2) (1/2) 3 5
      (by norm_num) (by norm_num) (by norm_num) (by norm_num))

theorem sqrt_mul_ceil_upper (n : ℕ) (hn : 0 < n) :
    n ≤ Nat.sqrt n * (⌈(n : ℚ) / (Nat.sqrt n : ℚ)⌉).toNat := by
  have hrpos : 0 < Nat.sqrt n := Nat.sqrt_pos.mpr hn
  have hrposQ : (0 : ℚ) < (Nat.sqrt n : ℚ) := by exact_mod_cast hrpos
  have hceil_pos : 0 < ⌈(n : ℚ) / (Nat.sqrt n : ℚ)⌉ := by
    apply Int.ceil_pos.mpr
    apply div_pos _ hrposQ
    exact_mod_cast hn
  have h1 : (n : ℚ) / (Nat.sqrt n : ℚ) ≤
      ((⌈(n : ℚ) / (Nat.sqrt n : ℚ)⌉ : ℤ) : ℚ) := Int.le_ceil _
  have h2 : (n : ℚ) ≤
      ((⌈(n : ℚ) / (Nat.sqrt n : ℚ)⌉ : ℤ) : ℚ) * (Nat.sqrt n : ℚ) :=
    (div_le_iff₀ hrposQ).mp h1
  have hcast : (((⌈(n : ℚ) / (Nat.sqrt n : ℚ)⌉).toNat : ℚ)) =
      ((⌈(n : ℚ) / (Nat.sqrt n : ℚ)⌉ : ℤ) : ℚ) := by
    exact_mod_cast congrArg (fun z : ℤ => (z : ℚ))
      (Int.toNat_of_nonneg hceil_pos.le)
  have hfinal : (n : ℚ) ≤ (Nat.sqrt n : ℚ) *
      ((⌈(n : ℚ) / (Nat.sqrt n : ℚ)⌉).toNat : ℚ) := by
    rw [hcast, mul_comm]
    exact h2
  exact_mod_cast hfinal

/-! Section: Claim C2 -/

/-- C2: in paginated fixed-count mode with requested count `n > 0`, the grid
is `rows = floor(sqrt n)` (characterised by `rows² ≤ n < (rows+1)²`) and
`cols = ceil(n / rows)` (characterised by `rows*(cols-1) < n ≤ rows*cols`);
the run succeeds exactly when the footprint fits the drawable area and
otherwise fails with `LayoutOverflow` reporting the required versus the
available size. -/
theorem fixed_count_grid_correct (drawW drawH qrW qrH colGap rowGap : ℚ)
    (n : ℕ) (hn : 0 < n) :
    ∃ rows cols : ℕ,
      rows = Nat.sqrt n ∧
      rows * rows ≤ n ∧ n < (rows + 1) * (rows + 1) ∧
      (cols : ℤ) = ⌈(n : ℚ) / (rows : ℚ)⌉ ∧
      rows * (cols - 1) < n ∧ n ≤ rows * cols ∧
      (grid_w cols qrW colGap ≤ drawW ∧ grid_h rows qrH rowGap ≤ drawH →
        fixedCountLayout drawW drawH qrW qrH colGap rowGap n =
          .ok (cols, rows, n)) ∧
      (drawW < grid_w cols qrW colGap ∨ drawH < grid_h rows qrH rowGap →
        fixedCountLayout drawW drawH qrW qrH colGap rowGap n =
          .error (.LayoutOverflow (grid_w cols qrW colGap)
            (grid_h rows qrH rowGap) drawW drawH)) := by
  have hrpos : 0 < Nat.sqrt n := Nat.sqrt_pos.mpr hn
  have hrposQ : (0 : ℚ) < (Nat.sqrt n : ℚ) := by exact_mod_cast hrpos
  have hceil_pos : 0 < ⌈(n : ℚ) / (Nat.sqrt n : ℚ)⌉ := by
    apply Int.ceil_pos.mpr
    apply div_pos _ hrposQ
    exact_mod_cast hn
  refine ⟨Nat.sqrt n, (⌈(n : ℚ) / (Nat.sqrt n : ℚ)⌉).toNat,
    rfl, ?_, ?_, ?_, ?_, ?_, ?_, ?_⟩
  · have := Nat.sqrt_le' n
    nlinarith [this]
  · have h := Nat.lt_succ_sqrt n
    simpa [Nat.succ_eq_add_one] using h
  · exact Int.toNat_of_nonneg hceil_pos.le
  · -- rows * (cols - 1) < n from `ceil q - 1 < q`
    have hcast : (((⌈(n : ℚ) / (Nat.sqrt n : ℚ)⌉).toNat : ℚ)) =
        ((⌈(n : ℚ) / (Nat.sqrt n : ℚ)⌉ : ℤ) : ℚ) := by
      exact_mod_cast congrArg (fun z : ℤ => (z : ℚ))
        (Int.toNat_of_nonneg hceil_pos.le)
    have h1 : ((⌈(n : ℚ) / (Nat.sqrt n : ℚ)⌉ : ℤ) : ℚ) - 1 <
        (n : ℚ) / (Nat.sqrt n : ℚ) := by
      have := Int.ceil_lt_add_one ((n : ℚ) / (Nat.sqrt n : ℚ))
      linarith
    have h2 : (((⌈(n : ℚ) / (Nat.sqrt n : ℚ)⌉).toNat : ℚ) - 1) *
        (Nat.sqrt n : ℚ) < (n : ℚ) := by
      rw [hcast]
      calc (((⌈(n : ℚ) / (Nat.sqrt n : ℚ)⌉ : ℤ) : ℚ) - 1) * (Nat.sqrt n : ℚ)
          < ((n : ℚ) / (Nat.sqrt n : ℚ)) * (Nat.sqrt n : ℚ) := by
            apply mul_lt_mul_of_pos_right h1 hrposQ
        _ = (n : ℚ) := by field_simp
    have htoNat_pos : 0 < (⌈(n : ℚ) / (Nat.sqrt n : ℚ)⌉).toNat := by
      omega
    have hfinal : (Nat.sqrt n : ℚ) *
        ((((⌈(n : ℚ) / (Nat.sqrt n : ℚ)⌉).toNat - 1 : ℕ)) : ℚ) < (n : ℚ) := by
      have hc1 : ((((⌈(n : ℚ) / (Nat.sqrt n : ℚ)⌉).toNat - 1 : ℕ)) : ℚ) =
          ((⌈(n : ℚ) / (Nat.sqrt n : ℚ)⌉).toNat : ℚ) - 1 := by
        have : 1 ≤ (⌈(n : ℚ) / (Nat.sqrt n : ℚ)⌉).toNat := htoNat_pos
        push_cast [this]
        ring
      rw [hc1, mul_comm]
      exact h2
    exact_mod_cast hfinal
  · exact sqrt_mul_ceil_upper n hn
  · intro hfits
    exact fixedCount_ok drawW drawH qrW qrH colGap rowGap n _ _
      (Nat.pos_iff_ne_zero.mp hn) rfl (Int.toNat_of_nonneg hceil_pos.le).symm
      (by push_neg; exact hfits)
  · intro hover
    exact fixedCount_overflow drawW drawH qrW qrH colGap rowGap n _ _
      (Nat.pos_iff_ne_zero.mp hn) rfl (Int.toNat_of_nonneg hceil_pos.le).symm
      hover

/-- C2 witness: the theorem applied at `n = 10` (rows 3, cols 4) on an A4
drawable area with 2x2 cm tiles and 0.5 cm gaps. -/
theorem fixed_count_grid_correct_witness :
    ∃ rows cols : ℕ,
      rows = Nat.sqrt 10 ∧
      rows * rows ≤ 10 ∧ 10 < (rows + 1) * (rows + 1) ∧
      (cols : ℤ) = ⌈(10 : ℚ) / (rows : ℚ)⌉ ∧
      rows * (cols - 1) < 10 ∧ 10 ≤ rows * cols ∧
      (grid_w cols 2 (1/2) ≤ 19 ∧ grid_h rows 2 (1/2) ≤ 277/10 →
        fixedCountLayout 19 (277/10) 2 2 (1/2) (1/2) 10 =
          .ok (cols, rows, 10)) ∧
      (19 < grid_w cols 2 (1/2) ∨ (277/10 : ℚ) < grid_h rows 2 (1/2) →
        fixedCountLayout 19 (277/10) 2 2 (1/2) (1/2) 10 =
          .error (.LayoutOverflow (grid_w cols 2 (1/2))
            (grid_h rows 2 (1/2)) 19 (277/10))) :=
  fixed_count_grid_correct 19 (277/10) 2 2 (1/2) (1/2) 10 (by norm_num)

/-! Section: Claim C7 -/

/-- C7 counterexample: the code does not validate spacing or tile
dimensions. A fixed-count run with negative spacing (`-0.5` cm) succeeds,
and a max-fit run with negative tile dimensions (`-1` cm, spacing `2` cm)
also succeeds — no rejection happens before the grid computation. -/
theorem validation_missing_cex :
    fixedCountLayout 19 (277/10) 5 5 (-(1/2)) (-(1/2)) 4 = .ok (2, 2, 4) ∧
    maxFitLayout 19 (277/10) (-1) (-1) 2 2 = .ok (21, 29) := by
  constructor
  · exact fixedCount_ok 19 (277/10) 5 5 (-(1/2)) (-(1/2)) 4 2 2 (by norm_num)
      (sqrt_eval (by norm_num) (by norm_num))
      (by push_cast; exact ceil_eval (by norm_num) (by norm_num))
      (by norm_num [grid_w, grid_h])
  · exact maxFit_ok 19 (277/10) (-1) (-1) 2 2 21 29 (by norm_num)
      (by norm_num) (by norm_num) (by norm_num)

/-- C7 (amended): the only input check the layout code performs before
computing a grid is the max-fit guard that tile size plus spacing be
positive; negative spacing and non-positive tile dimensions are otherwise
accepted, and the fixed-count branch performs no dimension or spacing
validation at all (it fails only on footprint overflow). -/
theorem layout_validation_actual :
    (∀ drawW drawH qrW qrH colGap rowGap : ℚ,
      qrW + colGap ≤ 0 ∨ qrH + rowGap ≤ 0 →
      maxFitLayout drawW drawH qrW qrH colGap rowGap = .error .InvalidInput) ∧
    (∀ drawW drawH qrW qrH colGap rowGap : ℚ, ∀ n : ℕ, 0 < n →
      ∀ cols rows : ℕ, rows = Nat.sqrt n →
      (cols : ℤ) = ⌈(n : ℚ) / (rows : ℚ)⌉ →
      grid_w cols qrW colGap ≤ drawW → grid_h rows qrH rowGap ≤ drawH →
      fixedCountLayout drawW drawH qrW qrH colGap rowGap n =
        .ok (cols, rows, n)) := by
  constructor
  · intro drawW drawH qrW qrH colGap rowGap hbad
    simp only [maxFitLayout]
    rw [if_pos hbad]
  · intro drawW drawH qrW qrH colGap rowGap n hn cols rows hrows hcols h1 h2
    exact fixedCount_ok drawW drawH qrW qrH colGap rowGap n cols rows
      (Nat.pos_iff_ne_zero.mp hn) hrows.symm hcols.symm
      (by push_neg; exact ⟨h1, h2⟩)

/-- C7 witness: the amended theorem applied concretely — a max-fit run with
tile-plus-spacing `≤ 0` terminates with an error, and a fixed-count run with
negative spacing is accepted. -/
theorem layout_validation_actual_witness :
    maxFitLayout 19 (277/10) 1 1 (-2) (-2) = .error .InvalidInput ∧
    fixedCountLayout 19 (277/10) 5 5 (-(1/2)) (-(1/2)) 9 = .ok (3, 3, 9) :=
  ⟨layout_validation_actual.1 19 (277/10) 1 1 (-2) (-2) (by norm_num),
   layout_validation_actual.2 19 (277/10) 5 5 (-(1/2)) (-(1/2)) 9 (by norm_num)
     3 3 (by exact (@sqrt_eval 9 3 (by norm_num) (by norm_num)).symm)
     (by push_cast; exact (ceil_eval (by norm_num) (by norm_num)).symm)
     (by norm_num [grid_w]) (by norm_num [grid_h])⟩

/-! Section: Pagination loop (source lines 233-258) -/

/-- One placement instruction: tile index, 0-based page index, and the
physical `(x_pos, y_pos)` handed to `drawImage` (bottom-left corner of the
tile, in cm, y increasing upward per the PDF coordinate system). -/
structure Placement where
  tileIndex : ℕ
  pageIndex : ℕ
  x : ℚ
  y : ℚ
deriving DecidableEq, Repr

/-- Inner `for col in range(qrs_per_row)` loop (source lines 241-253):
places consecutive tiles left to right at the current row height `y`,
advancing `x_pos` by `qr_width_cm + col_spacing_cm`, and breaking when the
tiles or the page capacity run out. The trailing arguments are the
remaining column slots, `current_qr_index`, `qrs_on_this_page`, `x_pos`;
the result carries the emitted placements and the updated two counters. -/
def drawRow (total cap page : ℕ) (qrW colGap y : ℚ) :
    ℕ → ℕ → ℕ → ℚ → List Placement × ℕ × ℕ
  | 0, idx, onPage, _ => ([], idx, onPage)
  | colsLeft + 1, idx, onPage, x =>
    if total ≤ idx ∨ cap ≤ onPage then ([], idx, onPage)
    else
      let rest := drawRow total cap page qrW colGap y colsLeft
        (idx + 1) (onPage + 1) (x + qrW + colGap)
      (⟨idx, page, x, y⟩ :: rest.1, rest.2)

theorem drawRow_spec (total cap page : ℕ) (qrW colGap y : ℚ) :
    ∀ (colsLeft idx onPage : ℕ) (x : ℚ),
      drawRow total cap page qrW colGap y colsLeft idx onPage x =
        ((List.range (min colsLeft (min (total - idx) (cap - onPage)))).map
          (fun j => ⟨idx + j, page, x + (j : ℚ) * (qrW + colGap), y⟩),
         idx + min colsLeft (min (total - idx) (cap - onPage)),
         onPage + min colsLeft (min (total - idx) (cap - onPage))) := by
  intro colsLeft
  induction colsLeft with
  | zero =>
    intro idx onPage x
    simp [drawRow]
  | succ c ih =>
    intro idx onPage x
    by_cases hstop : total ≤ idx ∨ cap ≤ onPage
    · have hz : min (c + 1) (min (total - idx) (cap - onPage)) = 0 := by omega
      rw [hz]
      simp [drawRow, if_pos hstop]
    · have hidx : idx < total := by omega
      have hop : onPage < cap := by omega
      have hk : min (c + 1) (min (total - idx) (cap - onPage)) =
          min c (min (total - (idx + 1)) (cap - (onPage + 1))) + 1 := by
        omega
      rw [hk]
      simp only [drawRow, if_neg hstop]
      rw [ih (idx + 1) (onPage + 1) (x + qrW + colGap)]
      simp only [Prod.mk.injEq]
      refine ⟨?_, by omega, by omega⟩
      rw [List.range_succ_eq_map, List.map_cons, List.map_map]
      congr 1
      · simp
      · apply List.map_congr_left
        intro j hj
        simp only [Function.comp_apply]
        have h1 : idx + 1 + j = idx + (j + 1) := by omega
        have h2 : x + qrW + colGap + (j : ℚ) * (qrW + colGap) =
            x + ((j : ℚ) + 1) * (qrW + colGap) := by ring
        rw [h1, h2]
        simp [Nat.succ_eq_add_one]

/-- Outer `for row in range(qrs_per_col)` loop (source lines 238-255): each
row restarts `x_pos` at `x_start`, draws one row, then lowers `y_pos` by
`qr_height_cm + row_spacing_cm`; it breaks when the tiles or the page
capacity run out. The trailing arguments are the remaining row slots,
`current_qr_index`, `qrs_on_this_page`, `y_pos`. -/
def drawPage (total cap page cols : ℕ) (qrW qrH colGap rowGap xStart : ℚ) :
    ℕ → ℕ → ℕ → ℚ → List Placement × ℕ × ℕ
  | 0, idx, onPage, _ => ([], idx, onPage)
  | rowsLeft + 1, idx, onPage, y =>
    if total ≤ idx ∨ cap ≤ onPage then ([], idx, onPage)
    else
      let r := drawRow total cap page qrW colGap y cols idx onPage xStart
      let rest := drawPage total cap page cols qrW qrH colGap rowGap xStart
        rowsLeft r.2.1 r.2.2 (y - (qrH + rowGap))
      (r.1 ++ rest.1, rest.2)

theorem drawPage_spec (total cap page cols : ℕ)
    (qrW qrH colGap rowGap xStart : ℚ) :
    ∀ (rowsLeft idx onPage : ℕ) (y : ℚ),
      drawPage total cap page cols qrW qrH colGap rowGap xStart
          rowsLeft idx onPage y =
        ((List.range (min (rowsLeft * cols)
            (min (total - idx) (cap - onPage)))).map
          (fun j => ⟨idx + j, page,
            xStart + ((j % cols : ℕ) : ℚ) * (qrW + colGap),
            y - ((j / cols : ℕ) : ℚ) * (qrH + rowGap)⟩),
         idx + min (rowsLeft * cols) (min (total - idx) (cap - onPage)),
         onPage + min (rowsLeft * cols) (min (total - idx) (cap - onPage))) := by
  intro rowsLeft
  induction rowsLeft with
  | zero =>
    intro idx onPage y
    simp [drawPage]
  | succ rl ih =>
    intro idx onPage y
    by_cases hstop : total ≤ idx ∨ cap ≤ onPage
    · have hmin0 : min (total - idx) (cap - onPage) = 0 := by omega
      rw [hmin0]
      simp [drawPage, if_pos hstop]
    · have hidx : idx < total := by omega
      have hop : onPage < cap := by omega
      simp only [drawPage, if_neg hstop]
      rw [drawRow_spec total cap page qrW colGap y]
      set M := min (total - idx) (cap - onPage) with hM
      set k1 := min cols M with hk1
      dsimp only
      rw [ih (idx + k1) (onPage + k1) (y - (qrH + rowGap))]
      have hM' : min (total - (idx + k1)) (cap - (onPage + k1)) = M - k1 := by
        omega
      rw [hM']
      set A := rl * cols with hA
      have hsum : min ((rl + 1) * cols) M = k1 + min A (M - k1) := by
        rw [show (rl + 1) * cols = A + cols from by rw [hA]; ring]
        omega
      rw [hsum]
      simp only [Prod.mk.injEq]
      refine ⟨?_, by omega, by omega⟩
      rw [List.range_add, List.map_append, List.map_map]
      congr 1
      · apply List.map_congr_left
        intro j hj
        have hjk : j < k1 := List.mem_range.mp hj
        have hjcols : j < cols := by omega
        have e1 : j % cols = j := Nat.mod_eq_of_lt hjcols
        have e2 : j / cols = 0 := Nat.div_eq_of_lt hjcols
        rw [e1, e2]
        simp
      · apply List.map_congr_left
        intro j hj
        have hjK : j < min A (M - k1) := List.mem_range.mp hj
        have hcolspos : 0 < cols := by
          rcases Nat.eq_zero_or_pos cols with h0 | h0
          · rw [h0, Nat.mul_zero] at hA
            omega
          · exact h0
        have hk1cols : k1 = cols := by omega
        simp only [Function.comp_apply, Placement.mk.injEq]
        rw [hk1cols]
        refine ⟨by omega, trivial, ?_, ?_⟩
        · rw [Nat.add_mod_left]
        · rw [Nat.add_comm cols j, Nat.add_div_right j hcolspos]
          push_cast
          ring

/-- The `while current_qr_index < len(qr_images)` loop (source lines
233-258): each iteration draws one page starting from
`y_pos = y_start - qr_height_cm` with `qrs_on_this_page = 0`, then moves to
the next page while tiles remain. The trailing arguments are fuel (`total`
suffices, since every page places at least one tile), `current_qr_index`,
and the 0-based page index. -/
def paginate (total cap cols rows : ℕ)
    (qrW qrH colGap rowGap xStart yStart : ℚ) :
    ℕ → ℕ → ℕ → List (List Placement)
  | 0, _, _ => []
  | fuel + 1, idx, page =>
    if total ≤ idx then []
    else
      let r := drawPage total cap page cols qrW qrH colGap rowGap xStart
        rows idx 0 (yStart - qrH)
      r.1 :: paginate total cap cols rows qrW qrH colGap rowGap xStart yStart
        fuel r.2.1 (page + 1)

/-- Ceiling division on naturals, `(a + b - 1) / b`, as used by the PNG row
count and realised by the page loop. -/
def ceilDivNat (a b : ℕ) : ℕ := (a + b - 1) / b

/-- The per-page placements of a paginated run: the pagination loop run
with fuel `total` from tile 0, page 0. -/
def placements (total cap cols rows : ℕ)
    (qrW qrH colGap rowGap xStart yStart : ℚ) : List (List Placement) :=
  paginate total cap cols rows qrW qrH colGap rowGap xStart yStart total 0 0

theorem ceilDivNat_zero (cap : ℕ) : ceilDivNat 0 cap = 0 := by
  unfold ceilDivNat
  rcases Nat.eq_zero_or_pos cap with h | h
  · simp [h]
  · exact Nat.div_eq_of_lt (by omega)

theorem ceilDivNat_step (T cap : ℕ) (hT : 1 ≤ T) (hcap : 1 ≤ cap) :
    ceilDivNat T cap = ceilDivNat (T - min T cap) cap + 1 := by
  rcases le_or_lt T cap with hle | hlt
  · have h1 : T - min T cap = 0 := by omega
    rw [h1, ceilDivNat_zero]
    unfold ceilDivNat
    have := Nat.div_eq_of_lt_le (show 1 * cap ≤ T + cap - 1 by omega)
      (show T + cap - 1 < (1 + 1) * cap by omega)
    omega
  · have h1 : T - min T cap = T - cap := by omega
    rw [h1]
    unfold ceilDivNat
    have h2 : T + cap - 1 = ((T - cap) + cap - 1) + cap := by omega
    rw [h2, Nat.add_div_right _ hcap]

theorem lt_ceilDivNat_mul (total cap p : ℕ) (hcap : 1 ≤ cap)
    (hp : p < ceilDivNat total cap) : p * cap < total := by
  by_contra hcon
  push_neg at hcon
  have h2 : total + cap - 1 < (p + 1) * cap := by
    rw [Nat.succ_mul]
    omega
  have h3 : (total + cap - 1) / cap < p + 1 :=
    (Nat.div_lt_iff_lt_mul hcap).mpr h2
  unfold ceilDivNat at hp
  omega

theorem paginate_spec (total cap cols rows : ℕ)
    (qrW qrH colGap rowGap xStart yStart : ℚ)
    (hcap : 1 ≤ cap) (hcaple : cap ≤ rows * cols) :
    ∀ (fuel idx page : ℕ), total - idx ≤ fuel →
      paginate total cap cols rows qrW qrH colGap rowGap xStart yStart
          fuel idx page =
        (List.range (ceilDivNat (total - idx) cap)).map (fun p =>
          (List.range (min cap (total - idx - p * cap))).map (fun j =>
            ⟨idx + p * cap + j, page + p,
             xStart + ((j % cols : ℕ) : ℚ) * (qrW + colGap),
             (yStart - qrH) - ((j / cols : ℕ) : ℚ) * (qrH + rowGap)⟩)) := by
  intro fuel
  induction fuel with
  | zero =>
    intro idx page hfuel
    have h0 : total - idx = 0 := by omega
    rw [h0, ceilDivNat_zero]
    simp [paginate]
  | succ f ih =>
    intro idx page hfuel
    by_cases hstop : total ≤ idx
    · have h0 : total - idx = 0 := by omega
      rw [h0, ceilDivNat_zero]
      simp [paginate, if_pos hstop]
    · have hidx : idx < total := by omega
      simp only [paginate, if_neg hstop]
      rw [drawPage_spec total cap page cols qrW qrH colGap rowGap xStart rows
        idx 0 (yStart - qrH)]
      dsimp only
      set B := rows * cols with hB
      have hk1 : min B (min (total - idx) (cap - 0)) =
          min (total - idx) cap := by omega
      rw [hk1]
      set T := total - idx with hT
      set k1 := min T cap with hk1'
      rw [ih (idx + k1) (page + 1) (by omega)]
      have hT' : total - (idx + k1) = T - k1 := by omega
      rw [hT']
      rw [ceilDivNat_step T cap (by omega) hcap]
      rw [show min T cap = k1 from rfl]
      rw [List.range_succ_eq_map, List.map_cons, List.map_map]
      congr 1
      · -- head page
        have e1 : T - 0 * cap = T := by omega
        simp only [Nat.zero_mul, Nat.add_zero, Nat.sub_zero, Nat.mul_zero]
        rw [Nat.min_comm cap T]
      · -- tail pages
        apply List.map_congr_left
        intro p hp
        have hpP : p < ceilDivNat (T - k1) cap := List.mem_range.mp hp
        have hTk : 1 ≤ T - k1 := by
          have := lt_ceilDivNat_mul (T - k1) cap 0 hcap (by omega)
          omega
        have hk1cap : k1 = cap := by omega
        simp only [Function.comp_apply]
        have e2 : T - (p + 1) * cap = (T - k1) - p * cap := by
          rw [Nat.succ_mul]
          omega
        rw [e2]
        apply List.map_congr_left
        intro j hj
        simp only [Placement.mk.injEq]
        refine ⟨?_, by omega, trivial, trivial⟩
        rw [Nat.succ_mul, hk1cap]
        omega

theorem placements_eq (total cap cols rows : ℕ)
    (qrW qrH colGap rowGap xStart yStart : ℚ)
    (hcap : 1 ≤ cap) (hcaple : cap ≤ rows * cols) :
    placements total cap cols rows qrW qrH colGap rowGap xStart yStart =
      (List.range (ceilDivNat total cap)).map (fun p =>
        (List.range (min cap (total - p * cap))).map (fun j =>
          ⟨p * cap + j, p,
           xStart + ((j % cols : ℕ) : ℚ) * (qrW + colGap),
           (yStart - qrH) - ((j / cols : ℕ) : ℚ) * (qrH + rowGap)⟩)) := by
  unfold placements
  rw [paginate_spec total cap cols rows qrW qrH colGap rowGap xStart yStart
    hcap hcaple total 0 0 (by omega)]
  simp only [Nat.sub_zero, Nat.zero_add]

theorem range_chunks_flatten (cap : ℕ) (hcap : 1 ≤ cap) :
    ∀ total, ((List.range (ceilDivNat total cap)).map (fun p =>
      (List.range (min cap (total - p * cap))).map
        (fun j => p * cap + j))).flatten = List.range total := by
  intro total
  induction total using Nat.strong_induction_on with
  | _ total ih =>
    rcases Nat.eq_zero_or_pos total with h0 | hpos
    · subst h0
      rw [ceilDivNat_zero]
      simp
    · rcases le_or_lt total cap with hle | hlt
      · have h1 : ceilDivNat total cap = 1 := by
          rw [ceilDivNat_step total cap hpos hcap]
          have h2 : total - min total cap = 0 := by omega
          rw [h2, ceilDivNat_zero]
        rw [h1]
        have h3 : min cap (total - 0 * cap) = total := by omega
        simp [List.range_succ_eq_map, h3, show min cap total = total from by omega]
      · rw [ceilDivNat_step total cap hpos hcap]
        have hmin : min total cap = cap := by omega
        rw [hmin]
        rw [List.range_succ_eq_map, List.map_cons, List.flatten_cons,
          List.map_map]
        have hhead : (List.range (min cap (total - 0 * cap))).map
            (fun j => 0 * cap + j) = List.range cap := by
          have h2 : min cap (total - 0 * cap) = cap := by omega
          rw [h2]
          simp
        rw [hhead]
        have hih := ih (total - cap) (by omega)
        have htail : (List.range (ceilDivNat (total - cap) cap)).map
            ((fun p => (List.range (min cap (total - p * cap))).map
              (fun j => p * cap + j)) ∘ Nat.succ)
            = (List.range (ceilDivNat (total - cap) cap)).map
              (fun p => ((List.range (min cap ((total - cap) - p * cap))).map
                (fun j => p * cap + j)).map (fun j => cap + j)) := by
          apply List.map_congr_left
          intro p hp
          simp only [Function.comp_apply, List.map_map]
          have e1 : min cap (total - Nat.succ p * cap) =
              min cap ((total - cap) - p * cap) := by
            rw [Nat.succ_mul]
            omega
          rw [e1]
          apply List.map_congr_left
          intro j hj
          simp only [Function.comp_apply]
          rw [Nat.succ_mul]
          omega
        rw [htail]
        have hflat : ((List.range (ceilDivNat (total - cap) cap)).map
            (fun p => ((List.range (min cap ((total - cap) - p * cap))).map
              (fun j => p * cap + j)).map (fun j => cap + j))).flatten
            = (List.range (total - cap)).map (fun j => cap + j) := by
          rw [show (fun p => ((List.range (min cap ((total - cap) - p * cap))).map
              (fun j => p * cap + j)).map (fun j => cap + j))
            = (List.map (fun j => cap + j)) ∘ (fun p =>
              (List.range (min cap ((total - cap) - p * cap))).map
                (fun j => p * cap + j)) from rfl]
          rw [← List.map_map, ← List.map_flatten, hih]
        rw [hflat]
        conv_rhs => rw [show total = cap + (total - cap) from by omega]
        rw [List.range_add]

theorem map_getD_range (data : List String) :
    (List.range data.length).map (fun i => data.getD i "") = data := by
  induction data with
  | nil => simp
  | cons a l ih =>
    rw [List.length_cons, List.range_succ_eq_map, List.map_cons, List.map_map]
    have h2 : (List.range l.length).map ((fun i => (a :: l).getD i "") ∘ Nat.succ)
        = (List.range l.length).map (fun i => l.getD i "") := by
      apply List.map_congr_left
      intro i hi
      simp [List.getD_cons_succ]
    rw [h2, ih]
    simp

/-! Section: Claim C4 -/

/-- C4: whenever the pagination loop runs with positive per-page capacity
`cap` not exceeding the grid size (as holds in both max-fit and fixed-count
runs), it emits exactly one placement per tile in input order (flattening
the pages gives `range total`, and reading the payloads back through the
tile indices reproduces the payload list unchanged); every page but the
last holds exactly `cap` tiles (a new page starts only when the previous
one is full and tiles remain, so no page is empty); and each page is filled
row-major: its `j`-th tile sits in column `j % cols` (left to right) and
row `j / cols` (top to bottom). -/
theorem pagination_order_correct (total cap cols rows : ℕ)
    (qrW qrH colGap rowGap xStart yStart : ℚ) (data : List String)
    (hcap : 1 ≤ cap) (hcaple : cap ≤ rows * cols)
    (hdata : data.length = total) :
    ((placements total cap cols rows qrW qrH colGap rowGap xStart
        yStart).flatten.map Placement.tileIndex = List.range total) ∧
    ((placements total cap cols rows qrW qrH colGap rowGap xStart
        yStart).flatten.map (fun pl => data.getD pl.tileIndex "") = data) ∧
    ((placements total cap cols rows qrW qrH colGap rowGap xStart
        yStart).length = ceilDivNat total cap) ∧
    (∀ p, p + 1 < ceilDivNat total cap →
      ((placements total cap cols rows qrW qrH colGap rowGap xStart
        yStart).getD p []).length = cap) ∧
    (∀ p, p < ceilDivNat total cap →
      (placements total cap cols rows qrW qrH colGap rowGap xStart
        yStart).getD p [] ≠ []) ∧
    (∀ p j, p < ceilDivNat total cap →
      j < ((placements total cap cols rows qrW qrH colGap rowGap xStart
        yStart).getD p []).length →
      ((placements total cap cols rows qrW qrH colGap rowGap xStart
        yStart).getD p []).getD j ⟨0, 0, 0, 0⟩ =
        ⟨p * cap + j, p, xStart + ((j % cols : ℕ) : ℚ) * (qrW + colGap),
         (yStart - qrH) - ((j / cols : ℕ) : ℚ) * (qrH + rowGap)⟩) := by
  have hpe := placements_eq total cap cols rows qrW qrH colGap rowGap xStart
    yStart hcap hcaple
  have hflat : (placements total cap cols rows qrW qrH colGap rowGap xStart
      yStart).flatten.map Placement.tileIndex = List.range total := by
    rw [hpe, List.map_flatten, List.map_map]
    rw [show (List.map Placement.tileIndex ∘ (fun p =>
        (List.range (min cap (total - p * cap))).map (fun j =>
          (⟨p * cap + j, p, xStart + ((j % cols : ℕ) : ℚ) * (qrW + colGap),
            (yStart - qrH) - ((j / cols : ℕ) : ℚ) * (qrH + rowGap)⟩ :
            Placement))))
        = fun p => (List.range (min cap (total - p * cap))).map
          (fun j => p * cap + j) from by
      funext p
      rw [Function.comp_apply, List.map_map]
      rfl]
    exact range_chunks_flatten cap hcap total
  have hget : ∀ p, p < ceilDivNat total cap →
      (placements total cap cols rows qrW qrH colGap rowGap xStart
        yStart).getD p [] =
        (List.range (min cap (total - p * cap))).map (fun j =>
          (⟨p * cap + j, p, xStart + ((j % cols : ℕ) : ℚ) * (qrW + colGap),
            (yStart - qrH) - ((j / cols : ℕ) : ℚ) * (qrH + rowGap)⟩ :
            Placement)) := by
    intro p hp
    rw [hpe, List.getD_eq_getElem?_getD, List.getElem?_eq_getElem
      (by simpa using hp), Option.getD_some, List.getElem_map,
      List.getElem_range]
  refine ⟨hflat, ?_, ?_, ?_, ?_, ?_⟩
  · have h1 : (placements total cap cols rows qrW qrH colGap rowGap xStart
        yStart).flatten.map (fun pl => data.getD pl.tileIndex "")
        = ((placements total cap cols rows qrW qrH colGap rowGap xStart
          yStart).flatten.map Placement.tileIndex).map
            (fun i => data.getD i "") := by
      rw [List.map_map]
      rfl
    rw [h1, hflat, ← hdata, map_getD_range]
  · rw [hpe]
    simp
  · intro p hp1
    rw [hget p (by omega), List.length_map, List.length_range]
    have h2 := lt_ceilDivNat_mul total cap (p + 1) hcap hp1
    rw [Nat.succ_mul] at h2
    omega
  · intro p hp
    rw [hget p hp]
    apply List.ne_nil_of_length_pos
    rw [List.length_map, List.length_range]
    have h2 := lt_ceilDivNat_mul total cap p hcap hp
    omega
  · intro p j hp hj
    rw [hget p hp] at hj ⊢
    rw [List.length_map, List.length_range] at hj
    rw [List.getD_eq_getElem?_getD, List.getElem?_eq_getElem
      (by simpa using hj), Option.getD_some, List.getElem_map,
      List.getElem_range]

/-- C4 witness: the theorem applied to 5 tiles with capacity 4 on a 2x2
grid (two pages: four tiles then one). -/
theorem pagination_order_correct_witness :
    ((placements 5 4 2 2 5 5 (1/2) (1/2) 0 10).flatten.map
        Placement.tileIndex = List.range 5) ∧
    ((placements 5 4 2 2 5 5 (1/2) (1/2) 0 10).flatten.map
        (fun pl => ["a", "b", "c", "d", "e"].getD pl.tileIndex "") =
          ["a", "b", "c", "d", "e"]) ∧
    ((placements 5 4 2 2 5 5 (1/2) (1/2) 0 10).length = ceilDivNat 5 4) ∧
    (∀ p, p + 1 < ceilDivNat 5 4 →
      ((placements 5 4 2 2 5 5 (1/2) (1/2) 0 10).getD p []).length = 4) ∧
    (∀ p, p < ceilDivNat 5 4 →
      (placements 5 4 2 2 5 5 (1/2) (1/2) 0 10).getD p [] ≠ []) ∧
    (∀ p j, p < ceilDivNat 5 4 →
      j < ((placements 5 4 2 2 5 5 (1/2) (1/2) 0 10).getD p []).length →
      ((placements 5 4 2 2 5 5 (1/2) (1/2) 0 10).getD p []).getD j
          ⟨0, 0, 0, 0⟩ =
        ⟨p * 4 + j, p, 0 + ((j % 2 : ℕ) : ℚ) * (5 + 1/2),
         ((10 : ℚ) - 5) - ((j / 2 : ℕ) : ℚ) * (5 + 1/2)⟩) :=
  pagination_order_correct 5 4 2 2 5 5 (1/2) (1/2) 0 10
    ["a", "b", "c", "d", "e"] (by norm_num) (by norm_num) (by decide)

/-! Section: Claim C10 -/

theorem fixedCount_ok_inv (drawW drawH qrW qrH colGap rowGap : ℚ)
    (n cols rows cap : ℕ)
    (hok : fixedCountLayout drawW drawH qrW qrH colGap rowGap n =
      .ok (cols, rows, cap)) :
    n ≠ 0 ∧ rows = Nat.sqrt n ∧
    (cols : ℤ) = ⌈(n : ℚ) / (Nat.sqrt n : ℚ)⌉ ∧ cap = n ∧
    grid_w cols qrW colGap ≤ drawW ∧ grid_h rows qrH rowGap ≤ drawH := by
  by_cases hn : n = 0
  · simp [fixedCountLayout, hn] at hok
  · simp only [fixedCountLayout, if_neg hn] at hok
    by_cases hover : drawW <
        grid_w ((⌈(n : ℚ) / (Nat.sqrt n : ℚ)⌉).toNat) qrW colGap ∨
        drawH < grid_h (Nat.sqrt n) qrH rowGap
    · rw [if_pos hover] at hok
      exact absurd hok (by simp)
    · rw [if_neg hover] at hok
      simp only [LayoutResult.ok.injEq, Prod.mk.injEq] at hok
      obtain ⟨h1, h2, h3⟩ := hok
      push_neg at hover
      have hceil_nonneg : 0 ≤ ⌈(n : ℚ) / (Nat.sqrt n : ℚ)⌉ :=
        Int.ceil_nonneg (div_nonneg (by positivity) (by positivity))
      rw [h1, h2] at hover
      refine ⟨hn, h2.symm, ?_, h3.symm, hover.1, hover.2⟩
      rw [← h1]
      exact Int.toNat_of_nonneg hceil_nonneg

/-- C10: in fixed-count mode, the per-page capacity returned by the layout
is exactly the requested count `n` — not `rows * cols`, even though the
near-square grid may have more cells (`n ≤ rows * cols`) — so at most `n`
tiles are placed per page, the surplus grid cells stay empty, and a run
with `total` tiles produces `ceil(total / n)` pages. -/
theorem fixed_count_capacity_pages (drawW drawH qrW qrH colGap rowGap
    xStart yStart : ℚ) (n total cols rows cap : ℕ)
    (hok : fixedCountLayout drawW drawH qrW qrH colGap rowGap n =
      .ok (cols, rows, cap)) :
    cap = n ∧ n ≤ rows * cols ∧
    (placements total cap cols rows qrW qrH colGap rowGap xStart
      yStart).length = ceilDivNat total n ∧
    ((ceilDivNat total n : ℤ) = ⌈(total : ℚ) / (n : ℚ)⌉) ∧
    (∀ pg ∈ placements total cap cols rows qrW qrH colGap rowGap xStart
      yStart, pg.length ≤ n) := by
  obtain ⟨hn, hrows, hcols, hcapn, hgw, hgh⟩ :=
    fixedCount_ok_inv drawW drawH qrW qrH colGap rowGap n cols rows cap hok
  have hnpos : 0 < n := Nat.pos_of_ne_zero hn
  have hcols_toNat : cols = (⌈(n : ℚ) / (Nat.sqrt n : ℚ)⌉).toNat := by
    omega
  have hle : n ≤ rows * cols := by
    rw [hrows, hcols_toNat]
    exact sqrt_mul_ceil_upper n hnpos
  rw [hcapn]
  refine ⟨rfl, hle, ?_, ?_, ?_⟩
  · rw [placements_eq total n cols rows qrW qrH colGap rowGap xStart yStart
      (by omega) hle]
    simp
  · unfold ceilDivNat
    exact ceilDiv_eq_ceil total n hnpos
  · intro pg hpg
    rw [placements_eq total n cols rows qrW qrH colGap rowGap xStart yStart
      (by omega) hle] at hpg
    rw [List.mem_map] at hpg
    obtain ⟨p, hp, rfl⟩ := hpg
    rw [List.length_map, List.length_range]
    omega

/-- C10 witness: the theorem applied at `n = 10` (grid 3x4 with 12 cells,
capacity 10) and 7 tiles. -/
theorem fixed_count_capacity_pages_witness :
    (10 : ℕ) = 10 ∧ 10 ≤ 3 * 4 ∧
    (placements 7 10 4 3 1 1 (1/2) (1/2) 0 0).length = ceilDivNat 7 10 ∧
    ((ceilDivNat 7 10 : ℤ) = ⌈((7 : ℕ) : ℚ) / ((10 : ℕ) : ℚ)⌉) ∧
    (∀ pg ∈ placements 7 10 4 3 1 1 (1/2) (1/2) 0 0, pg.length ≤ 10) :=
  fixed_count_capacity_pages 19 (277/10) 1 1 (1/2) (1/2) 0 0 10 7 4 3 10
    (fixedCount_ok 19 (277/10) 1 1 (1/2) (1/2) 10 4 3 (by norm_num)
      (sqrt_eval (by norm_num) (by norm_num))
      (by push_cast; exact ceil_eval (by norm_num) (by norm_num))
      (by norm_num [grid_w, grid_h]))

/-! Section: Claim C5 -/

theorem maxFit_ok_inv (drawW drawH qrW qrH colGap rowGap : ℚ) (c r : ℤ)
    (hok : maxFitLayout drawW drawH qrW qrH colGap rowGap = .ok (c, r)) :
    0 < qrW + colGap ∧ 0 < qrH + rowGap ∧
    c = ⌊(drawW + colGap) / (qrW + colGap)⌋ ∧
    r = ⌊(drawH + rowGap) / (qrH + rowGap)⌋ ∧ c ≠ 0 ∧ r ≠ 0 := by
  by_cases hguard : qrW + colGap ≤ 0 ∨ qrH + rowGap ≤ 0
  · simp [maxFitLayout, if_pos hguard] at hok
  · simp only [maxFitLayout, if_neg hguard] at hok
    by_cases hz : ⌊(drawW + colGap) / (qrW + colGap)⌋ = 0 ∨
        ⌊(drawH + rowGap) / (qrH + rowGap)⌋ = 0
    · rw [if_pos hz] at hok
      exact absurd hok (by simp)
    · rw [if_neg hz] at hok
      simp only [LayoutResult.ok.injEq, Prod.mk.injEq] at hok
      push_neg at hguard hz
      obtain ⟨hc, hr⟩ := hok
      subst hc
      subst hr
      exact ⟨hguard.1, hguard.2, rfl, rfl, hz.1, hz.2⟩

theorem placements_in_bounds (total cap cols rows : ℕ)
    (pageW pageH qrW qrH colGap rowGap : ℚ)
    (hcols : 1 ≤ cols) (hrows : 1 ≤ rows) (hcap : 1 ≤ cap)
    (hcaple : cap ≤ rows * cols)
    (hw : 0 < qrW) (hh : 0 < qrH) (hgx : 0 ≤ colGap) (hgy : 0 ≤ rowGap)
    (hgw : grid_w cols qrW colGap ≤ drawable_width_cm pageW)
    (hgh : grid_h rows qrH rowGap ≤ drawable_height_cm pageH) :
    ∀ pl ∈ (placements total cap cols rows qrW qrH colGap rowGap
        (x_start pageW (grid_w cols qrW colGap))
        (y_start pageH (grid_h rows qrH rowGap))).flatten,
      margin_cm ≤ pl.x ∧ pl.x + qrW ≤ pageW - margin_cm ∧
      margin_cm ≤ pl.y ∧ pl.y + qrH ≤ pageH - margin_cm := by
  intro pl hpl
  rw [placements_eq total cap cols rows qrW qrH colGap rowGap _ _ hcap
    hcaple] at hpl
  rw [List.mem_flatten] at hpl
  obtain ⟨pg, hpg, hplpg⟩ := hpl
  rw [List.mem_map] at hpg
  obtain ⟨p, hpP, rfl⟩ := hpg
  rw [List.mem_map] at hplpg
  obtain ⟨j, hjmem, rfl⟩ := hplpg
  rw [List.mem_range] at hjmem
  have hj : j < cap := by omega
  have hjcr : j < rows * cols := lt_of_lt_of_le hj hcaple
  have hcolpos : 0 < cols := by omega
  have hmod : j % cols ≤ cols - 1 := by
    have := Nat.mod_lt j hcolpos
    omega
  have hdiv : j / cols ≤ rows - 1 := by
    have h2 : j / cols < rows := by
      rw [Nat.div_lt_iff_lt_mul hcolpos]
      exact hjcr
    omega
  have hstep : (0 : ℚ) < qrW + colGap := by linarith
  have hvstep : (0 : ℚ) < qrH + rowGap := by linarith
  have hcolsQ : ((j % cols : ℕ) : ℚ) ≤ (cols : ℚ) - 1 := by
    have h1 : ((j % cols : ℕ) : ℚ) ≤ ((cols - 1 : ℕ) : ℚ) := by
      exact_mod_cast hmod
    have h2 : ((cols - 1 : ℕ) : ℚ) = (cols : ℚ) - 1 := by
      push_cast [hcols]
      ring
    linarith
  have hrowsQ : ((j / cols : ℕ) : ℚ) ≤ (rows : ℚ) - 1 := by
    have h1 : ((j / cols : ℕ) : ℚ) ≤ ((rows - 1 : ℕ) : ℚ) := by
      exact_mod_cast hdiv
    have h2 : ((rows - 1 : ℕ) : ℚ) = (rows : ℚ) - 1 := by
      push_cast [hrows]
      ring
    linarith
  have hxnn : (0 : ℚ) ≤ ((j % cols : ℕ) : ℚ) * (qrW + colGap) :=
    mul_nonneg (Nat.cast_nonneg _) hstep.le
  have hxub : ((j % cols : ℕ) : ℚ) * (qrW + colGap) ≤
      ((cols : ℚ) - 1) * (qrW + colGap) :=
    mul_le_mul_of_nonneg_right hcolsQ hstep.le
  have hynn : (0 : ℚ) ≤ ((j / cols : ℕ) : ℚ) * (qrH + rowGap) :=
    mul_nonneg (Nat.cast_nonneg _) hvstep.le
  have hyub : ((j / cols : ℕ) : ℚ) * (qrH + rowGap) ≤
      ((rows : ℚ) - 1) * (qrH + rowGap) :=
    mul_le_mul_of_nonneg_right hrowsQ hvstep.le
  have hgwx : grid_w cols qrW colGap =
      ((cols : ℚ) - 1) * (qrW + colGap) + qrW := by
    unfold grid_w
    have h2 : ((cols - 1 : ℕ) : ℚ) = (cols : ℚ) - 1 := by
      push_cast [hcols]
      ring
    rw [h2]
    ring
  have hghy : grid_h rows qrH rowGap =
      ((rows : ℚ) - 1) * (qrH + rowGap) + qrH := by
    unfold grid_h
    have h2 : ((rows - 1 : ℕ) : ℚ) = (rows : ℚ) - 1 := by
      push_cast [hrows]
      ring
    rw [h2]
    ring
  simp only [drawable_width_cm, drawable_height_cm, margin_cm] at hgw hgh
  simp only [x_start, y_start, margin_cm]
  refine ⟨?_, ?_, ?_, ?_⟩
  · linarith
  · linarith
  · linarith
  · linarith

/-- C5 (amended): for a paginated run with positive tile dimensions,
non-negative spacing (a hypothesis the code itself does not enforce) and a
positive drawable area, every placement of a successful max-fit or
fixed-count layout lies fully inside the drawable bounds — the page minus
its 1 cm margins — because the grid footprint fits the drawable area and
is centered via `x_start = (page_w - grid_w)/2` and
`y_start = page_h - (page_h - grid_h)/2`. -/
theorem placements_within_drawable (pageW pageH qrW qrH colGap rowGap : ℚ)
    (total n : ℕ)
    (hw : 0 < qrW) (hh : 0 < qrH) (hgx : 0 ≤ colGap) (hgy : 0 ≤ rowGap)
    (hpw : 2 * margin_cm < pageW) (hph : 2 * margin_cm < pageH) :
    (∀ c r : ℤ,
      maxFitLayout (drawable_width_cm pageW) (drawable_height_cm pageH)
        qrW qrH colGap rowGap = .ok (c, r) →
      ∀ pl ∈ (placements total (c * r).toNat c.toNat r.toNat qrW qrH colGap
          rowGap (x_start pageW (grid_w c.toNat qrW colGap))
          (y_start pageH (grid_h r.toNat qrH rowGap))).flatten,
        margin_cm ≤ pl.x ∧ pl.x + qrW ≤ pageW - margin_cm ∧
        margin_cm ≤ pl.y ∧ pl.y + qrH ≤ pageH - margin_cm) ∧
    (∀ cols rows cap : ℕ,
      fixedCountLayout (drawable_width_cm pageW) (drawable_height_cm pageH)
        qrW qrH colGap rowGap n = .ok (cols, rows, cap) →
      ∀ pl ∈ (placements total cap cols rows qrW qrH colGap rowGap
          (x_start pageW (grid_w cols qrW colGap))
          (y_start pageH (grid_h rows qrH rowGap))).flatten,
        margin_cm ≤ pl.x ∧ pl.x + qrW ≤ pageW - margin_cm ∧
        margin_cm ≤ pl.y ∧ pl.y + qrH ≤ pageH - margin_cm) := by
  have hdW : (0 : ℚ) < drawable_width_cm pageW := by
    simp only [drawable_width_cm, margin_cm] at *
    linarith
  have hdH : (0 : ℚ) < drawable_height_cm pageH := by
    simp only [drawable_height_cm, margin_cm] at *
    linarith
  constructor
  · intro c r hok
    obtain ⟨hstep, hvstep, hc, hr, hc0, hr0⟩ :=
      maxFit_ok_inv _ _ qrW qrH colGap rowGap c r hok
    have hcge : 1 ≤ c := by
      have h1 : 0 ≤ ⌊(drawable_width_cm pageW + colGap) / (qrW + colGap)⌋ :=
        Int.floor_nonneg.mpr (div_nonneg (by linarith) hstep.le)
      rw [← hc] at h1
      omega
    have hrge : 1 ≤ r := by
      have h1 : 0 ≤ ⌊(drawable_height_cm pageH + rowGap) / (qrH + rowGap)⌋ :=
        Int.floor_nonneg.mpr (div_nonneg (by linarith) hvstep.le)
      rw [← hr] at h1
      omega
    have hcN : ((c.toNat : ℕ) : ℚ) = (c : ℚ) := by
      exact_mod_cast congrArg (fun z : ℤ => (z : ℚ))
        (Int.toNat_of_nonneg (by omega))
    have hrN : ((r.toNat : ℕ) : ℚ) = (r : ℚ) := by
      exact_mod_cast congrArg (fun z : ℤ => (z : ℚ))
        (Int.toNat_of_nonneg (by omega))
    have hgwb : grid_w c.toNat qrW colGap ≤ drawable_width_cm pageW := by
      have h1 : ((c : ℤ) : ℚ) ≤ (drawable_width_cm pageW + colGap) /
          (qrW + colGap) := by
        rw [hc]
        exact Int.floor_le _
      have h2 : ((c : ℤ) : ℚ) * (qrW + colGap) ≤
          drawable_width_cm pageW + colGap := (le_div_iff₀ hstep).mp h1
      unfold grid_w
      have h3 : ((c.toNat - 1 : ℕ) : ℚ) = ((c : ℤ) : ℚ) - 1 := by
        have h4 : 1 ≤ c.toNat := by omega
        push_cast [h4]
        rw [hcN]
      rw [hcN, h3]
      nlinarith [h2]
    have hghb : grid_h r.toNat qrH rowGap ≤ drawable_height_cm pageH := by
      have h1 : ((r : ℤ) : ℚ) ≤ (drawable_height_cm pageH + rowGap) /
          (qrH + rowGap) := by
        rw [hr]
        exact Int.floor_le _
      have h2 : ((r : ℤ) : ℚ) * (qrH + rowGap) ≤
          drawable_height_cm pageH + rowGap := (le_div_iff₀ hvstep).mp h1
      unfold grid_h
      have h3 : ((r.toNat - 1 : ℕ) : ℚ) = ((r : ℤ) : ℚ) - 1 := by
        have h4 : 1 ≤ r.toNat := by omega
        push_cast [h4]
        rw [hrN]
      rw [hrN, h3]
      nlinarith [h2]
    have hcap1 : 1 ≤ (c * r).toNat := by
      have h1 : 0 < c * r := mul_pos (by omega) (by omega)
      omega
    have hcaple : (c * r).toNat ≤ r.toNat * c.toNat := by
      apply le_of_eq
      have h5 : (((c * r).toNat : ℕ) : ℤ) = c * r :=
        Int.toNat_of_nonneg (mul_nonneg (by omega) (by omega))
      have e1 : ((c.toNat : ℕ) : ℤ) = c := Int.toNat_of_nonneg (by omega)
      have e2 : ((r.toNat : ℕ) : ℤ) = r := Int.toNat_of_nonneg (by omega)
      have h6 : (((r.toNat * c.toNat : ℕ)) : ℤ) = c * r := by
        push_cast
        rw [e1, e2]
        ring
      exact_mod_cast h5.trans h6.symm
    exact placements_in_bounds total (c * r).toNat c.toNat r.toNat pageW
      pageH qrW qrH colGap rowGap (by omega) (by omega) hcap1 hcaple hw hh
      hgx hgy hgwb hghb
  · intro cols rows cap hok
    obtain ⟨hn0, hrows, hcols, hcapn, hgwb, hghb⟩ :=
      fixedCount_ok_inv _ _ qrW qrH colGap rowGap n cols rows cap hok
    have hnpos : 0 < n := Nat.pos_of_ne_zero hn0
    have hrowsge : 1 ≤ rows := by
      rw [hrows]
      exact Nat.sqrt_pos.mpr hnpos
    have hceil_pos : 0 < ⌈(n : ℚ) / (Nat.sqrt n : ℚ)⌉ := by
      apply Int.ceil_pos.mpr
      apply div_pos
      · exact_mod_cast hnpos
      · exact_mod_cast Nat.sqrt_pos.mpr hnpos
    have hcolsge : 1 ≤ cols := by omega
    have hcolsT : cols = (⌈(n : ℚ) / (Nat.sqrt n : ℚ)⌉).toNat := by omega
    have hcaple : cap ≤ rows * cols := by
      rw [hcapn, hrows, hcolsT]
      exact sqrt_mul_ceil_upper n hnpos
    have hcap1 : 1 ≤ cap := by omega
    exact placements_in_bounds total cap cols rows pageW pageH qrW qrH
      colGap rowGap hcolsge hrowsge hcap1 hcaple hw hh hgx hgy hgwb hghb

/-- C5 counterexample: the claim as stated fails on the code because
spacing is never validated. With tile height 20 cm and row spacing −39 cm
on an A4 page, the fixed-count check passes (footprint 10 x 1 cm), yet the
very first placement has `y = -4.65` cm — the tile hangs off the bottom of
the page, far outside the 1 cm margin. -/
theorem placement_out_of_bounds_cex :
    fixedCountLayout (drawable_width_cm 21) (drawable_height_cm (297/10))
      5 20 0 (-39) 4 = .ok (2, 2, 4) ∧
    (placements 1 4 2 2 5 20 0 (-39) (x_start 21 (grid_w 2 5 0))
      (y_start (297/10) (grid_h 2 20 (-39)))).flatten =
      [⟨0, 0, 11/2, -93/20⟩] ∧
    (-93/20 : ℚ) < margin_cm := by
  refine ⟨?_, ?_, by norm_num [margin_cm]⟩
  · exact fixedCount_ok _ _ 5 20 0 (-39) 4 2 2 (by norm_num)
      (sqrt_eval (by norm_num) (by norm_num))
      (by push_cast; exact ceil_eval (by norm_num) (by norm_num))
      (by norm_num [grid_w, grid_h, drawable_width_cm, drawable_height_cm,
        margin_cm])
  · rw [placements_eq 1 4 2 2 5 20 0 (-39) _ _ (by norm_num) (by norm_num)]
    rw [show ceilDivNat 1 4 = 1 from by norm_num [ceilDivNat]]
    rw [List.range_succ_eq_map]
    simp only [List.range_zero, List.map_nil, List.map_cons,
      List.flatten_cons, List.flatten_nil, List.append_nil]
    rw [show min 4 (1 - 0 * 4) = 1 from by norm_num]
    rw [List.range_succ_eq_map]
    simp only [List.range_zero, List.map_nil, List.map_cons,
      Placement.mk.injEq]
    norm_num [x_start, y_start, grid_w, grid_h]

/-- C5 witness: the amended theorem applied on an A4 page with 5x5 cm
tiles and 0.5 cm gaps. -/
theorem placements_within_drawable_witness :
    (∀ c r : ℤ,
      maxFitLayout (drawable_width_cm 21) (drawable_height_cm (297/10))
        5 5 (1/2) (1/2) = .ok (c, r) →
      ∀ pl ∈ (placements 7 (c * r).toNat c.toNat r.toNat 5 5 (1/2) (1/2)
          (x_start 21 (grid_w c.toNat 5 (1/2)))
          (y_start (297/10) (grid_h r.toNat 5 (1/2)))).flatten,
        margin_cm ≤ pl.x ∧ pl.x + 5 ≤ 21 - margin_cm ∧
        margin_cm ≤ pl.y ∧ pl.y + 5 ≤ 297/10 - margin_cm) ∧
    (∀ cols rows cap : ℕ,
      fixedCountLayout (drawable_width_cm 21) (drawable_height_cm (297/10))
        5 5 (1/2) (1/2) 10 = .ok (cols, rows, cap) →
      ∀ pl ∈ (placements 7 cap cols rows 5 5 (1/2) (1/2)
          (x_start 21 (grid_w cols 5 (1/2)))
          (y_start (297/10) (grid_h rows 5 (1/2)))).flatten,
        margin_cm ≤ pl.x ∧ pl.x + 5 ≤ 21 - margin_cm ∧
        margin_cm ≤ pl.y ∧ pl.y + 5 ≤ 297/10 - margin_cm) :=
  placements_within_drawable 21 (297/10) 5 5 (1/2) (1/2) 7 10
    (by norm_num) (by norm_num) (by norm_num) (by norm_num)
    (by norm_num [margin_cm]) (by norm_num [margin_cm])

/-! Section: Claim C8: I/O trace of the PDF drawing path -/

/-- Observable I/O events of the PDF branch: opening the output canvas
(line 224), writing `temp_qr_i.png` (line 245), `c.drawImage` (line 247),
`os.remove` (line 249), `c.showPage()` (line 258) and `c.save()`
(line 260). -/
inductive PdfEvent where
  | openCanvas : PdfEvent
  | saveTemp : ℕ → PdfEvent
  | drawImage : ℕ → PdfEvent
  | removeTemp : ℕ → PdfEvent
  | showPage : PdfEvent
  | saveCanvas : PdfEvent
deriving DecidableEq, Repr

/-- Per-tile drawing (source lines 244-249): save the temp file, draw it
into the canvas, remove the temp file. `failAt = some i` models `drawImage`
raising an exception on tile `i`: its temp file is already on disk, the
removal never executes, and the exception aborts the rest of the run. The
boolean reports whether the loop completed. -/
def drawTiles (failAt : Option ℕ) : List ℕ → List PdfEvent × Bool
  | [] => ([], true)
  | i :: rest =>
    if failAt = some i then ([.saveTemp i], false)
    else
      let r := drawTiles failAt rest
      (.saveTemp i :: .drawImage i :: .removeTemp i :: r.1, r.2)

/-- The page loop's I/O (source lines 233-260): `showPage` between pages
(only when tiles remain) and `save` at the end; a raised exception stops
everything downstream. -/
def renderPages (failAt : Option ℕ) : List (List ℕ) → List PdfEvent × Bool
  | [] => ([.saveCanvas], true)
  | [pg] =>
    let r := drawTiles failAt pg
    if r.2 then (r.1 ++ [.saveCanvas], true) else (r.1, false)
  | pg :: pg2 :: rest =>
    let r := drawTiles failAt pg
    if r.2 then
      let r2 := renderPages failAt (pg2 :: rest)
      (r.1 ++ PdfEvent.showPage :: r2.1, r2.2)
    else (r.1, false)

/-- The PDF drawing phase: the canvas is opened (source line 224) before
any page is rendered. -/
def renderPdf (pages : List (List ℕ)) (failAt : Option ℕ) : List PdfEvent :=
  PdfEvent.openCanvas :: (renderPages failAt pages).1

/-- The whole PDF branch of `main` (source lines 157-260): the layout is
computed and validated first; an error terminates the run before the
canvas is opened (no events at all); otherwise the tiles are paginated
and drawn. `countChoice = none` is the `'max'` answer, `some n` a
fixed count. -/
def pdfRun (pageW pageH qrW qrH colGap rowGap : ℚ) (countChoice : Option ℕ)
    (total : ℕ) (failAt : Option ℕ) : List PdfEvent :=
  match countChoice with
  | none =>
    match maxFitLayout (drawable_width_cm pageW) (drawable_height_cm pageH)
        qrW qrH colGap rowGap with
    | .error _ => []
    | .ok (c, r) =>
      renderPdf ((placements total (c * r).toNat c.toNat r.toNat qrW qrH
        colGap rowGap (x_start pageW (grid_w c.toNat qrW colGap))
        (y_start pageH (grid_h r.toNat qrH rowGap))).map
          (fun pg => pg.map Placement.tileIndex)) failAt
  | some n =>
    match fixedCountLayout (drawable_width_cm pageW)
        (drawable_height_cm pageH) qrW qrH colGap rowGap n with
    | .error _ => []
    | .ok (cols, rows, cap) =>
      renderPdf ((placements total cap cols rows qrW qrH colGap rowGap
        (x_start pageW (grid_w cols qrW colGap))
        (y_start pageH (grid_h rows qrH rowGap))).map
          (fun pg => pg.map Placement.tileIndex)) failAt

/-- The tile index a `saveTemp` event writes, if any. -/
def tempSavedIdx : PdfEvent → Option ℕ
  | .saveTemp i => some i
  | _ => none

/-- The tile index a `removeTemp` event deletes, if any. -/
def tempRemovedIdx : PdfEvent → Option ℕ
  | .removeTemp i => some i
  | _ => none

/-- Temp files written during a trace. -/
def tempsSaved (evs : List PdfEvent) : List ℕ := evs.filterMap tempSavedIdx

/-- Temp files deleted during a trace. -/
def tempsRemoved (evs : List PdfEvent) : List ℕ :=
  evs.filterMap tempRemovedIdx

/-- Temp files still on disk after a trace. -/
def tempFilesLeft (evs : List PdfEvent) : List ℕ :=
  (tempsSaved evs).filter (fun i => !((tempsRemoved evs).contains i))

theorem drawTiles_none_spec : ∀ tiles : List ℕ,
    tempsSaved (drawTiles none tiles).1 =
      tempsRemoved (drawTiles none tiles).1 ∧
    (drawTiles none tiles).2 = true := by
  intro tiles
  induction tiles with
  | nil => exact ⟨rfl, rfl⟩
  | cons i rest ih =>
    have hne : ¬ ((none : Option ℕ) = some i) := by simp
    obtain ⟨ih1, ih2⟩ := ih
    constructor
    · simp only [drawTiles, if_neg hne, tempsSaved, tempsRemoved,
        List.filterMap_cons, tempSavedIdx, tempRemovedIdx]
      simp only [tempsSaved, tempsRemoved] at ih1
      rw [ih1]
    · simp only [drawTiles, if_neg hne]
      exact ih2

theorem drawTiles_fail_spec (k : ℕ) : ∀ tiles : List ℕ,
    (k ∈ tiles →
      tempsSaved (drawTiles (some k) tiles).1 =
        tempsRemoved (drawTiles (some k) tiles).1 ++ [k] ∧
      (drawTiles (some k) tiles).2 = false) ∧
    (k ∉ tiles →
      tempsSaved (drawTiles (some k) tiles).1 =
        tempsRemoved (drawTiles (some k) tiles).1 ∧
      (drawTiles (some k) tiles).2 = true) := by
  intro tiles
  induction tiles with
  | nil =>
    constructor
    · intro h
      exact absurd h (List.not_mem_nil k)
    · intro _
      exact ⟨rfl, rfl⟩
  | cons i rest ih =>
    by_cases hik : k = i
    · subst hik
      constructor
      · intro _
        constructor
        · simp [drawTiles, tempsSaved, tempsRemoved, tempSavedIdx,
            tempRemovedIdx]
        · simp [drawTiles]
      · intro hmem
        exact absurd (List.mem_cons_self k rest) hmem
    · have hne : ¬ ((some k : Option ℕ) = some i) := by simp [hik]
      constructor
      · intro hmem
        have hmem2 : k ∈ rest := by
          rcases List.mem_cons.mp hmem with h | h
          · exact absurd h hik
          · exact h
        obtain ⟨h1, h2⟩ := ih.1 hmem2
        constructor
        · simp only [drawTiles, if_neg hne, tempsSaved, tempsRemoved,
            List.filterMap_cons, tempSavedIdx, tempRemovedIdx]
          simp only [tempsSaved, tempsRemoved] at h1
          rw [h1, List.cons_append]
        · simp only [drawTiles, if_neg hne]
          exact h2
      · intro hmem
        have hmem2 : k ∉ rest := fun h => hmem (List.mem_cons_of_mem i h)
        obtain ⟨h1, h2⟩ := ih.2 hmem2
        constructor
        · simp only [drawTiles, if_neg hne, tempsSaved, tempsRemoved,
            List.filterMap_cons, tempSavedIdx, tempRemovedIdx]
          simp only [tempsSaved, tempsRemoved] at h1
          rw [h1]
        · simp only [drawTiles, if_neg hne]
          exact h2

theorem tempsSaved_append (a b : List PdfEvent) :
    tempsSaved (a ++ b) = tempsSaved a ++ tempsSaved b :=
  List.filterMap_append a b tempSavedIdx

theorem tempsRemoved_append (a b : List PdfEvent) :
    tempsRemoved (a ++ b) = tempsRemoved a ++ tempsRemoved b :=
  List.filterMap_append a b tempRemovedIdx

theorem renderPages_none_spec : ∀ pages : List (List ℕ),
    tempsSaved (renderPages none pages).1 =
      tempsRemoved (renderPages none pages).1 := by
  intro pages
  induction pages with
  | nil => rfl
  | cons pg rest ih =>
    obtain ⟨h1, h2⟩ := drawTiles_none_spec pg
    rcases rest with _ | ⟨pg2, rest2⟩
    · simp only [renderPages, h2, if_true]
      have e1 : tempsSaved [PdfEvent.saveCanvas] = [] := rfl
      have e2 : tempsRemoved [PdfEvent.saveCanvas] = [] := rfl
      rw [tempsSaved_append, tempsRemoved_append, e1, e2, List.append_nil,
        List.append_nil, h1]
    · simp only [renderPages, h2, if_true]
      have e1 : tempsSaved
          (PdfEvent.showPage :: (renderPages none (pg2 :: rest2)).1) =
          tempsSaved (renderPages none (pg2 :: rest2)).1 := rfl
      have e2 : tempsRemoved
          (PdfEvent.showPage :: (renderPages none (pg2 :: rest2)).1) =
          tempsRemoved (renderPages none (pg2 :: rest2)).1 := rfl
      rw [tempsSaved_append, tempsRemoved_append, e1, e2, h1, ih]

theorem renderPages_fail_spec (k : ℕ) : ∀ pages : List (List ℕ),
    (k ∈ pages.flatten →
      tempsSaved (renderPages (some k) pages).1 =
        tempsRemoved (renderPages (some k) pages).1 ++ [k]) ∧
    (k ∉ pages.flatten →
      tempsSaved (renderPages (some k) pages).1 =
        tempsRemoved (renderPages (some k) pages).1) := by
  intro pages
  induction pages with
  | nil =>
    constructor
    · intro h
      simp at h
    · intro _
      rfl
  | cons pg rest ih =>
    rcases rest with _ | ⟨pg2, rest2⟩
    · by_cases hmem : k ∈ pg
      · obtain ⟨h1, h2⟩ := (drawTiles_fail_spec k pg).1 hmem
        constructor
        · intro _
          simp only [renderPages, h2, Bool.false_eq_true, if_false]
          exact h1
        · intro hnot
          exact absurd (by simpa using hmem) hnot
      · obtain ⟨h1, h2⟩ := (drawTiles_fail_spec k pg).2 hmem
        constructor
        · intro hmem2
          exact absurd (by simpa using hmem2) hmem
        · intro _
          simp only [renderPages, h2, if_true]
          have e1 : tempsSaved [PdfEvent.saveCanvas] = [] := rfl
          have e2 : tempsRemoved [PdfEvent.saveCanvas] = [] := rfl
          rw [tempsSaved_append, tempsRemoved_append, e1, e2,
            List.append_nil, List.append_nil, h1]
    · by_cases hmem : k ∈ pg
      · obtain ⟨h1, h2⟩ := (drawTiles_fail_spec k pg).1 hmem
        constructor
        · intro _
          simp only [renderPages, h2, Bool.false_eq_true, if_false]
          exact h1
        · intro hnot
          exfalso
          apply hnot
          simp [hmem]
      · obtain ⟨h1, h2⟩ := (drawTiles_fail_spec k pg).2 hmem
        have e1 : tempsSaved
            (PdfEvent.showPage :: (renderPages (some k) (pg2 :: rest2)).1) =
            tempsSaved (renderPages (some k) (pg2 :: rest2)).1 := rfl
        have e2 : tempsRemoved
            (PdfEvent.showPage :: (renderPages (some k) (pg2 :: rest2)).1) =
            tempsRemoved (renderPages (some k) (pg2 :: rest2)).1 := rfl
        constructor
        · intro hmem2
          have hmem3 : k ∈ (pg2 :: rest2).flatten := by
            rw [List.flatten_cons] at hmem2
            rcases List.mem_append.mp hmem2 with h | h
            · exact absurd h hmem
            · exact h
          simp only [renderPages, h2, if_true]
          rw [tempsSaved_append, tempsRemoved_append, e1, e2, h1,
            ih.1 hmem3, List.append_assoc]
        · intro hnot
          have hmem3 : k ∉ (pg2 :: rest2).flatten := by
            intro h
            apply hnot
            rw [List.flatten_cons]
            exact List.mem_append.mpr (Or.inr h)
          simp only [renderPages, h2, if_true]
          rw [tempsSaved_append, tempsRemoved_append, e1, e2, h1,
            ih.2 hmem3]

/-- C8 counterexample: temp files are not removed unconditionally, and the
output file is opened before rendering. In a run whose `drawImage` raises
on tile 1 — after tile 0 was already drawn — the trace shows the canvas
already opened and `temp_qr_1.png` still on disk. -/
theorem temp_file_left_cex :
    PdfEvent.openCanvas ∈ renderPdf [[0, 1]] (some 1) ∧
    tempFilesLeft (renderPdf [[0, 1]] (some 1)) = [1] := by
  constructor
  · exact List.mem_cons_self _ _
  · rfl

/-- C8 (amended): the layout is fully validated before the output document
is opened — a layout error produces no I/O events, so no output file and no
temp file is ever created — and each per-tile temp file is removed
immediately after its `drawImage` succeeds, so a run without drawing
failures removes every temp file it saves; but the removal is not
exception-safe: when `drawImage` fails on a tile of the run, exactly that
tile's temp file is left on disk while the output file has already been
opened. -/
theorem pdf_cleanup_actual :
    (∀ (pageW pageH qrW qrH colGap rowGap : ℚ) (n total : ℕ)
      (failAt : Option ℕ) (e : LayoutError),
      fixedCountLayout (drawable_width_cm pageW) (drawable_height_cm pageH)
        qrW qrH colGap rowGap n = .error e →
      pdfRun pageW pageH qrW qrH colGap rowGap (some n) total failAt = []) ∧
    (∀ (pageW pageH qrW qrH colGap rowGap : ℚ) (total : ℕ)
      (failAt : Option ℕ) (e : LayoutError),
      maxFitLayout (drawable_width_cm pageW) (drawable_height_cm pageH)
        qrW qrH colGap rowGap = .error e →
      pdfRun pageW pageH qrW qrH colGap rowGap none total failAt = []) ∧
    (∀ pages : List (List ℕ),
      tempsSaved (renderPdf pages none) =
        tempsRemoved (renderPdf pages none)) ∧
    (∀ (pages : List (List ℕ)) (k : ℕ), k ∈ pages.flatten →
      tempsSaved (renderPdf pages (some k)) =
        tempsRemoved (renderPdf pages (some k)) ++ [k] ∧
      PdfEvent.openCanvas ∈ renderPdf pages (some k)) := by
  refine ⟨?_, ?_, ?_, ?_⟩
  · intro pageW pageH qrW qrH colGap rowGap n total failAt e herr
    simp only [pdfRun]
    rw [herr]
  · intro pageW pageH qrW qrH colGap rowGap total failAt e herr
    simp only [pdfRun]
    rw [herr]
  · intro pages
    have h := renderPages_none_spec pages
    simp only [tempsSaved, tempsRemoved] at h ⊢
    simp only [renderPdf, List.filterMap_cons, tempSavedIdx, tempRemovedIdx]
    exact h
  · intro pages k hk
    constructor
    · have h := (renderPages_fail_spec k pages).1 hk
      simp only [tempsSaved, tempsRemoved] at h ⊢
      simp only [renderPdf, List.filterMap_cons, tempSavedIdx,
        tempRemovedIdx]
      exact h
    · exact List.mem_cons_self _ _

/-- C8 witness: the amended theorem applied concretely — an oversized
fixed-count layout fails before any event is emitted, a clean two-tile run
removes both temp files, and a failure on tile 1 leaves exactly
`temp_qr_1.png` behind with the canvas already opened. -/
theorem pdf_cleanup_actual_witness :
    pdfRun 21 (297/10) 100 100 0 0 (some 4) 3 none = [] ∧
    tempsSaved (renderPdf [[0, 1]] none) =
      tempsRemoved (renderPdf [[0, 1]] none) ∧
    (tempsSaved (renderPdf [[0, 1]] (some 1)) =
      tempsRemoved (renderPdf [[0, 1]] (some 1)) ++ [1] ∧
     PdfEvent.openCanvas ∈ renderPdf [[0, 1]] (some 1)) :=
  ⟨pdf_cleanup_actual.1 21 (297/10) 100 100 0 0 4 3 none
    (.LayoutOverflow (grid_w 2 100 0) (grid_h 2 100 0)
      (drawable_width_cm 21) (drawable_height_cm (297/10)))
    (fixedCount_overflow _ _ 100 100 0 0 4 2 2 (by norm_num)
      (sqrt_eval (by norm_num) (by norm_num))
      (by push_cast; exact ceil_eval (by norm_num) (by norm_num))
      (Or.inl (by norm_num [grid_w, drawable_width_cm, margin_cm]))),
   pdf_cleanup_actual.2.2.1 [[0, 1]],
   pdf_cleanup_actual.2.2.2 [[0, 1]] 1 (by decide)⟩

end CreateQR
